import Mathlib

/-!
Shallow embedding of `bayesflow/simulators/benchmark_simulators/bernoulli_glm_raw.py`
(class `BernoulliGLMRaw`), together with proofs of the specified properties.

Real-number semantics: numpy float64 arithmetic is modelled by exact real
arithmetic (`ℝ`), `np.sqrt` by `Real.sqrt`, `scipy.special.expit` by
`1 / (1 + Real.exp (-x))`, and `np.linalg.inv` by Mathlib's matrix inverse.

Randomness: `np.random.Generator` is modelled as a stream of real numbers
together with a position; every sampling call reads a fixed number of cells
starting at the current position and advances the position.  A cell read by a
standard-normal draw is the draw itself; a location-scale normal draw is
`loc + scale * u`; a single-trial binomial (Bernoulli) draw with success
probability `p` is the inverse-CDF transform `if u < p then 1 else 0`; a
multivariate normal draw is an affine transform of nine fresh cells by a
square root of the covariance.  This makes every draw a pure function of the
generator's state, exactly as a seeded `np.random.Generator` is.
-/

namespace BernoulliGLM

open scoped Matrix

/-- Model of `np.random.Generator`: an infinite stream of real cells plus the
current read position. -/
structure Rng where
  stream : ℕ → ℝ
  pos : ℕ

/-- Consuming `n` cells advances the position by `n`. -/
def Rng.advance (r : Rng) (n : ℕ) : Rng :=
  ⟨r.stream, r.pos + n⟩

/-- `rng.normal(loc, scale)`: one scalar normal draw, `loc + scale * u` for a
standard-normal cell `u`; consumes one cell. -/
noncomputable def Rng.normal (r : Rng) (loc scale : ℝ) : ℝ × Rng :=
  (loc + scale * r.stream r.pos, r.advance 1)

/-- A square-root factor of a covariance matrix: the positive semidefinite
square root when the matrix is positive semidefinite (the case `numpy`'s
SVD-based factorization handles), `0` otherwise. -/
noncomputable def covFactor (M : Matrix (Fin 9) (Fin 9) ℝ) :
    Matrix (Fin 9) (Fin 9) ℝ :=
  letI := Classical.dec M.PosSemidef
  if h : M.PosSemidef then h.sqrt else 0

/-- `rng.multivariate_normal(mean, M)`: draws nine standard-normal cells `u`
and returns `mean + u ᵥ* covFactor M`; consumes nine cells. -/
noncomputable def Rng.multivariateNormal (r : Rng) (mean : Fin 9 → ℝ)
    (M : Matrix (Fin 9) (Fin 9) ℝ) : (Fin 9 → ℝ) × Rng :=
  (fun i => mean i + ∑ j, covFactor M j i * r.stream (r.pos + j), r.advance 9)

/-- The 9×9 matrix `F` built in `BernoulliGLMRaw.__init__`:
`F[i, i] = 1 + sqrt(i / 9)`, `F[i, i-1] = -2` for `i ≥ 1`,
`F[i, i-2] = 1` for `i ≥ 2`, all other entries `0`.  (The three vectorized
assignments in the source touch pairwise disjoint index sets.) -/
noncomputable def Fmat : Matrix (Fin 9) (Fin 9) ℝ :=
  Matrix.of fun i j =>
    if i = j then 1 + Real.sqrt (((i : ℕ) : ℝ) / 9)
    else if (j : ℕ) + 1 = (i : ℕ) then -2
    else if (j : ℕ) + 2 = (i : ℕ) then 1
    else 0

/-- `self.cov = np.linalg.inv(F.T @ F)`. -/
noncomputable def covSigma : Matrix (Fin 9) (Fin 9) ℝ :=
  (Fmat.transpose * Fmat)⁻¹

/-- The simulator instance: the fields of a `BernoulliGLMRaw` object. -/
structure Sim where
  T : ℕ
  rng : Rng
  cov : Matrix (Fin 9) (Fin 9) ℝ

/-- `BernoulliGLMRaw.__init__`: stores `T` and the generator and computes the
covariance once.  (No validation of `T` is performed.) -/
noncomputable def mkSim (T : ℕ) (r : Rng) : Sim :=
  ⟨T, r, covSigma⟩

/-- `scipy.special.expit`, the logistic sigmoid `1 / (1 + exp (-x))`. -/
noncomputable def expit (x : ℝ) : ℝ :=
  1 / (1 + Real.exp (-x))

/-- `rng.binomial(n=1, p)` for one cell `u`: the inverse-CDF Bernoulli draw. -/
noncomputable def bernoulliDraw (p u : ℝ) : ℝ :=
  if u < p then 1 else 0

/-- `V = self.rng.normal(size=(9, T))`: a 9×T matrix of standard-normal cells
read row-major from the stream; consumes `9 * T` cells. -/
def designMatrix (T : ℕ) (r : Rng) : Matrix (Fin 9) (Fin T) ℝ :=
  Matrix.of fun k t => r.stream (r.pos + (k : ℕ) * T + (t : ℕ))

/-- `BernoulliGLMRaw.prior`: `beta = rng.normal(0, 2)`,
`f = rng.multivariate_normal(zeros(9), self.cov)`, returns
`np.append(beta, f)`. -/
noncomputable def prior (s : Sim) : (Fin 10 → ℝ) × Sim :=
  let b := s.rng.normal 0 2
  let fv := b.2.multivariateNormal (fun _ => 0) s.cov
  (Fin.cons b.1 fv.1, { s with rng := fv.2 })

/-- `BernoulliGLMRaw.observation_model` on a (type-level) length-10 parameter
vector: unpacks `beta = params[0]`, `f = params[1:]`, draws the design matrix
`V`, computes `z = rng.binomial(n=1, p=expit(V.T @ f + beta))` and returns
`np.c_[z[:, None], V.T]` of shape `(T, 10)`. -/
noncomputable def observationModel (s : Sim) (params : Fin 10 → ℝ) :
    Matrix (Fin s.T) (Fin 10) ℝ × Sim :=
  let beta := params 0
  let f : Fin 9 → ℝ := fun i => params i.succ
  let V := designMatrix s.T s.rng
  let r1 := s.rng.advance (9 * s.T)
  let z : Fin s.T → ℝ := fun t =>
    bernoulliDraw (expit ((∑ k, V k t * f k) + beta)) (r1.stream (r1.pos + (t : ℕ)))
  (Matrix.of fun t j => Fin.cases (z t) (fun k => V k t) j,
    { s with rng := r1.advance s.T })

/-- One full benchmark run: a prior sample followed by an observation
simulation on it. -/
noncomputable def fullRun (s : Sim) :
    ((Fin 10 → ℝ) × Matrix (Fin s.T) (Fin 10) ℝ) × Sim :=
  let p := prior s
  let o := observationModel p.2 p.1
  ((p.1, o.1), o.2)

/-- `BernoulliGLMRaw.observation_model` on a dynamically sized parameter list,
following the Python step by step: `params[0]` raises at once on an empty
vector; otherwise the design matrix is drawn (consuming `9 * T` cells) and
only then does `V.T @ f` raise when `params[1:]` does not have 9 entries.
The generator returned alongside an error is the generator's state at the
moment the exception is raised. -/
noncomputable def obsModelDyn (T : ℕ) (r : Rng) (params : List ℝ) :
    Except String (List (List ℝ)) × Rng :=
  match params with
  | [] => (Except.error "IndexError: index 0 is out of bounds", r)
  | beta :: rest =>
    let V : ℕ → ℕ → ℝ := fun k t => r.stream (r.pos + k * T + t)
    let r1 := r.advance (9 * T)
    if rest.length = 9 then
      let f : ℕ → ℝ := fun k => rest.getD k 0
      let z : ℕ → ℝ := fun t =>
        bernoulliDraw (expit ((∑ k ∈ Finset.range 9, V k t * f k) + beta))
          (r1.stream (r1.pos + t))
      (Except.ok ((List.range T).map fun t => z t :: (List.range 9).map fun k => V k t),
        r1.advance T)
    else (Except.error "ValueError: shapes not aligned", r1)

/-! ### Structure of the precision factor `F` -/

lemma Fmat_diag (i : Fin 9) : Fmat i i = 1 + Real.sqrt (((i : ℕ) : ℝ) / 9) := by
  simp [Fmat]

lemma Fmat_diag_pos (i : Fin 9) : 0 < Fmat i i := by
  rw [Fmat_diag]
  have h := Real.sqrt_nonneg (((i : ℕ) : ℝ) / 9)
  linarith

lemma Fmat_strictly_above (i j : Fin 9) (h : i < j) : Fmat i j = 0 := by
  have hv : (i : ℕ) < (j : ℕ) := h
  have hne : i ≠ j := Fin.ne_of_lt h
  simp only [Fmat, Matrix.of_apply]
  rw [if_neg hne, if_neg (by omega), if_neg (by omega)]

lemma Fmat_sub_one (i j : Fin 9) (h : (j : ℕ) + 1 = (i : ℕ)) : Fmat i j = -2 := by
  have hne : i ≠ j := Fin.ne_of_val_ne (by omega)
  simp only [Fmat, Matrix.of_apply]
  rw [if_neg hne, if_pos h]

lemma Fmat_sub_two (i j : Fin 9) (h : (j : ℕ) + 2 = (i : ℕ)) : Fmat i j = 1 := by
  have hne : i ≠ j := Fin.ne_of_val_ne (by omega)
  simp only [Fmat, Matrix.of_apply]
  rw [if_neg hne, if_neg (by omega), if_pos h]

lemma Fmat_other (i j : Fin 9) (hne : i ≠ j) (h1 : (j : ℕ) + 1 ≠ (i : ℕ))
    (h2 : (j : ℕ) + 2 ≠ (i : ℕ)) : Fmat i j = 0 := by
  simp only [Fmat, Matrix.of_apply]
  rw [if_neg hne, if_neg h1, if_neg h2]

lemma Fmat_transpose_upperTriangular : Fmat.transpose.BlockTriangular id := by
  intro i j hij
  exact Fmat_strictly_above j i hij

lemma Fmat_det_pos : 0 < Fmat.det := by
  rw [← Matrix.det_transpose, Matrix.det_of_upperTriangular Fmat_transpose_upperTriangular]
  exact Finset.prod_pos fun i _ => by simpa using Fmat_diag_pos i

lemma Fmat_mulVec_injective : Function.Injective Fmat.mulVec :=
  Matrix.mulVec_injective_iff_isUnit.mpr <|
    (Matrix.isUnit_iff_isUnit_det _).mpr Fmat_det_pos.ne'.isUnit

lemma FtF_isHermitian : (Fmat.transpose * Fmat).IsHermitian := by
  have h := Matrix.isHermitian_transpose_mul_self Fmat
  rwa [Matrix.conjTranspose_eq_transpose_of_trivial] at h

lemma FtF_posDef : (Fmat.transpose * Fmat).PosDef := by
  refine ⟨FtF_isHermitian, fun x hx => ?_⟩
  have hFx : Fmat.mulVec x ≠ 0 := by
    intro h0
    exact hx (Fmat_mulVec_injective (h0.trans (Matrix.mulVec_zero Fmat).symm))
  have hstar : star x = x := funext fun i => star_trivial _
  have hstar2 : star (Fmat.mulVec x) = Fmat.mulVec x := funext fun i => star_trivial _
  rw [hstar, ← Matrix.mulVec_mulVec, Matrix.dotProduct_mulVec, Matrix.vecMul_transpose,
    ← hstar2]
  exact Matrix.dotProduct_star_self_pos_iff.mpr hFx

lemma Fmat_isUnit : IsUnit Fmat :=
  (Matrix.isUnit_iff_isUnit_det _).mpr Fmat_det_pos.ne'.isUnit

lemma FtF_isUnit : IsUnit (Fmat.transpose * Fmat) :=
  ((Matrix.isUnit_transpose Fmat).mpr Fmat_isUnit).mul Fmat_isUnit

lemma FtF_mul_covSigma : (Fmat.transpose * Fmat) * covSigma = 1 := by
  unfold covSigma
  letI := FtF_isUnit.invertible
  exact Matrix.mul_inv_of_invertible _

lemma covSigma_conjTranspose : covSigma.conjTranspose = covSigma := by
  unfold covSigma
  rw [Matrix.conjTranspose_nonsing_inv, FtF_isHermitian]

lemma covSigma_posDef : covSigma.PosDef := by
  refine ⟨covSigma_conjTranspose, fun x hx => ?_⟩
  have hAx : (Fmat.transpose * Fmat) *ᵥ (covSigma *ᵥ x) = x := by
    rw [Matrix.mulVec_mulVec, FtF_mul_covSigma, Matrix.one_mulVec]
  have hy : covSigma *ᵥ x ≠ 0 := by
    intro h0
    apply hx
    rw [h0, Matrix.mulVec_zero] at hAx
    exact hAx.symm
  have hpos := FtF_posDef.2 (covSigma *ᵥ x) hy
  rw [hAx] at hpos
  have hs1 : star (covSigma *ᵥ x) = covSigma *ᵥ x := funext fun i => star_trivial _
  have hs2 : star x = x := funext fun i => star_trivial _
  rw [hs1, Matrix.dotProduct_comm] at hpos
  rwa [hs2]

lemma covSigma_symm : covSigma.transpose = covSigma := by
  have h : covSigma.conjTranspose = covSigma := covSigma_conjTranspose
  rwa [Matrix.conjTranspose_eq_transpose_of_trivial] at h

/-! ### Claim theorems -/

/-- C1: at construction the simulator builds the 9×9 matrix `F` with
`F[i,i] = 1 + sqrt(i/9)`, `F[i,i-1] = -2` for `i ≥ 1`, `F[i,i-2] = 1` for
`i ≥ 2`, all other entries zero, and computes and caches
`Σ = (Fᵀ F)⁻¹` once; neither prior sampling nor observation simulation
ever changes the cached covariance. -/
theorem c1_precision_construction (T : ℕ) (r : Rng) (s : Sim) (params : Fin 10 → ℝ) :
    (∀ i : Fin 9, Fmat i i = 1 + Real.sqrt (((i : ℕ) : ℝ) / 9)) ∧
    (∀ i j : Fin 9, (j : ℕ) + 1 = (i : ℕ) → Fmat i j = -2) ∧
    (∀ i j : Fin 9, (j : ℕ) + 2 = (i : ℕ) → Fmat i j = 1) ∧
    (∀ i j : Fin 9, i ≠ j → (j : ℕ) + 1 ≠ (i : ℕ) → (j : ℕ) + 2 ≠ (i : ℕ) →
      Fmat i j = 0) ∧
    (mkSim T r).cov = (Fmat.transpose * Fmat)⁻¹ ∧
    (prior s).2.cov = s.cov ∧
    (observationModel s params).2.cov = s.cov :=
  ⟨Fmat_diag, Fmat_sub_one, Fmat_sub_two, Fmat_other, rfl, rfl, rfl⟩

/-- Witness for C1 at concrete indices and a concrete instance. -/
theorem c1_precision_construction_witness :
    Fmat 1 0 = -2 ∧ Fmat 2 0 = 1 ∧ Fmat 0 1 = 0 ∧
    (mkSim 5 ⟨fun _ => 0, 0⟩).cov = (Fmat.transpose * Fmat)⁻¹ := by
  have h := c1_precision_construction 5 ⟨fun _ => 0, 0⟩
    (mkSim 5 ⟨fun _ => 0, 0⟩) (fun _ => 0)
  exact ⟨h.2.1 1 0 (by decide), h.2.2.1 2 0 (by decide),
    h.2.2.2.1 0 1 (by decide) (by decide) (by decide), h.2.2.2.2.1⟩

/-- C6 counterexample: `F` is not upper-triangular — the entry in row 1,
column 0 lies strictly below the diagonal yet equals `-2 ≠ 0`. -/
theorem c6_counterexample : (0 : Fin 9) < 1 ∧ Fmat 1 0 = -2 ∧ Fmat 1 0 ≠ 0 := by
  have h : Fmat 1 0 = -2 := Fmat_sub_one 1 0 (by decide)
  exact ⟨by decide, h, by rw [h]; norm_num⟩

/-- C6 (amended): the matrix `F` built at construction is lower-triangular
with positive diagonal entries — every entry strictly above the diagonal is
zero, and every diagonal entry is strictly positive. -/
theorem c6_lower_triangular (i j : Fin 9) :
    (i < j → Fmat i j = 0) ∧ 0 < Fmat i i :=
  ⟨Fmat_strictly_above i j, Fmat_diag_pos i⟩

/-- Witness for the amended C6 at concrete indices. -/
theorem c6_lower_triangular_witness : Fmat 0 1 = 0 ∧ 0 < Fmat 0 0 :=
  ⟨(c6_lower_triangular 0 1).1 (by decide), (c6_lower_triangular 0 1).2⟩

/-- C7: the cached covariance `Σ = (Fᵀ F)⁻¹` is symmetric and positive
definite (`Matrix.PosDef`, equivalently: Hermitian with all eigenvalues
strictly positive), and every simulator instance caches this same
`T`-independent matrix. -/
theorem c7_cov_symmetric_posDef :
    covSigma.transpose = covSigma ∧ covSigma.PosDef ∧
    ∀ (T : ℕ) (r : Rng), (mkSim T r).cov = covSigma :=
  ⟨covSigma_symm, covSigma_posDef, fun _ _ => rfl⟩

/-- Distinct (row, column) pairs of the design matrix read distinct stream
cells: `a * T + b` with `b < T` determines `a` and `b`. -/
lemma mul_add_inj (T a b a' b' : ℕ) (hb : b < T) (hb' : b' < T)
    (h : a * T + b = a' * T + b') : a = a' ∧ b = b' := by
  have ha : a = a' := by
    rcases Nat.lt_trichotomy a a' with hlt | heq | hgt
    · have h2 : (a + 1) * T ≤ a' * T := Nat.mul_le_mul_right _ hlt
      have h3 : (a + 1) * T = a * T + T := by ring
      omega
    · exact heq
    · have h2 : (a' + 1) * T ≤ a * T := Nat.mul_le_mul_right _ hgt
      have h3 : (a' + 1) * T = a' * T + T := by ring
      omega
  subst ha
  omega

/-- Column 0 of the observation matrix unfolded: the Bernoulli draw of the
logistic-linked linear predictor, on cell `9T + t`. -/
lemma obs_col_zero (s : Sim) (params : Fin 10 → ℝ) (t : Fin s.T) :
    (observationModel s params).1 t 0
      = bernoulliDraw
          (expit ((∑ k, designMatrix s.T s.rng k t * params k.succ) + params 0))
          (s.rng.stream (s.rng.pos + 9 * s.T + (t : ℕ))) := by
  show (Matrix.of _ : Matrix (Fin s.T) (Fin 10) ℝ) t 0 = _
  simp only [Matrix.of_apply, Fin.cases_zero, Rng.advance]

/-- Columns 1..9 of the observation matrix are the transposed design
matrix. -/
lemma obs_col_succ (s : Sim) (params : Fin 10 → ℝ) (t : Fin s.T) (j : Fin 9) :
    (observationModel s params).1 t j.succ = designMatrix s.T s.rng j t := by
  show (Matrix.of _ : Matrix (Fin s.T) (Fin 10) ℝ) t j.succ = _
  simp only [Matrix.of_apply, Fin.cases_succ]

/-- C2: for every length-10 parameter vector, observation simulation reads
the 9×T design matrix from fresh standard-normal stream cells (row-major,
distinct cells for distinct entries), forms the linear predictor
`Vᵀ f + β` with the scalar intercept broadcast, maps it through the
logistic link `expit`, and draws each `z_t` as a Bernoulli trial on its own
dedicated fresh cell `9T + t`. -/
theorem c2_observation_pipeline (s : Sim) (params : Fin 10 → ℝ) (t : Fin s.T) :
    (∀ k : Fin 9, designMatrix s.T s.rng k t
        = s.rng.stream (s.rng.pos + (k : ℕ) * s.T + (t : ℕ))) ∧
    (∀ (k k' : Fin 9) (u u' : Fin s.T),
        (k : ℕ) * s.T + (u : ℕ) = (k' : ℕ) * s.T + (u' : ℕ) → k = k' ∧ u = u') ∧
    (observationModel s params).1 t 0
        = bernoulliDraw
            (expit ((∑ k, designMatrix s.T s.rng k t * params k.succ) + params 0))
            (s.rng.stream (s.rng.pos + 9 * s.T + (t : ℕ))) := by
  refine ⟨fun k => rfl, fun k k' u u' h => ?_, obs_col_zero s params t⟩
  obtain ⟨h1, h2⟩ := mul_add_inj s.T _ _ _ _ u.isLt u'.isLt h
  exact ⟨Fin.ext h1, Fin.ext h2⟩

/-- C3: for positive `T`, the observation matrix (whose type records exactly
`T` rows and 10 columns) has column 0 valued in `{0, 1}` and columns 1..9 of
row `t` equal to the internally drawn design matrix entries
`V[0,t], ..., V[8,t]`. -/
theorem c3_output_shape (s : Sim) (params : Fin 10 → ℝ) (hT : 0 < s.T) :
    (∀ t : Fin s.T,
        (observationModel s params).1 t 0 = 0 ∨ (observationModel s params).1 t 0 = 1) ∧
    (∀ (t : Fin s.T) (j : Fin 9),
        (observationModel s params).1 t j.succ = designMatrix s.T s.rng j t) := by
  constructor
  · intro t
    rw [obs_col_zero s params t]
    unfold bernoulliDraw
    split
    · exact Or.inr rfl
    · exact Or.inl rfl
  · exact obs_col_succ s params

/-- Witness for C3 on a concrete instance with `T = 1`. -/
theorem c3_output_shape_witness :
    (∀ t : Fin (mkSim 1 ⟨fun _ => 0, 0⟩).T,
        (observationModel (mkSim 1 ⟨fun _ => 0, 0⟩) (fun _ => 0)).1 t 0 = 0 ∨
        (observationModel (mkSim 1 ⟨fun _ => 0, 0⟩) (fun _ => 0)).1 t 0 = 1) ∧
    (∀ (t : Fin (mkSim 1 ⟨fun _ => 0, 0⟩).T) (j : Fin 9),
        (observationModel (mkSim 1 ⟨fun _ => 0, 0⟩) (fun _ => 0)).1 t j.succ
          = designMatrix (mkSim 1 ⟨fun _ => 0, 0⟩).T (mkSim 1 ⟨fun _ => 0, 0⟩).rng j t) :=
  c3_output_shape (mkSim 1 ⟨fun _ => 0, 0⟩) (fun _ => 0) Nat.one_pos

/-- C4: prior sampling draws `β` first as a `Normal(0, scale 2)` variate of
the current cell, then `f` as a multivariate normal with mean `0` and the
instance's cached covariance on the next nine cells, and returns the
concatenation: entry 0 is `β`, entries 1..9 are `f`; every constructed
instance's cached covariance is `Σ`. -/
theorem c4_prior_structure (s : Sim) :
    (prior s).1 0 = 0 + 2 * s.rng.stream s.rng.pos ∧
    (∀ i : Fin 9, (prior s).1 i.succ
        = 0 + ∑ j, covFactor s.cov j i * s.rng.stream (s.rng.pos + 1 + (j : ℕ))) ∧
    (∀ (T : ℕ) (r : Rng), (mkSim T r).cov = covSigma) ∧
    (prior s).2.rng.pos = s.rng.pos + 1 + 9 := by
  exact ⟨rfl, fun i => rfl, fun T r => rfl, rfl⟩

/-- C8: the full run (prior sample, then observation simulation) is a
deterministic function of `T` and the randomness source's state: two
otherwise-identical instances whose sources hold the same seed stream at the
same position produce identical parameter vectors and observation
matrices. -/
theorem c8_determinism (T : ℕ) (r1 r2 : Rng)
    (hstream : r1.stream = r2.stream) (hpos : r1.pos = r2.pos) :
    fullRun (mkSim T r1) = fullRun (mkSim T r2) := by
  obtain ⟨s1, p1⟩ := r1
  obtain ⟨s2, p2⟩ := r2
  cases hstream
  cases hpos
  rfl

/-- Witness for C8 on a concrete seed. -/
theorem c8_determinism_witness :
    fullRun (mkSim 3 ⟨fun _ => 0, 0⟩) = fullRun (mkSim 3 ⟨fun _ => 0, 0⟩) :=
  c8_determinism 3 ⟨fun _ => 0, 0⟩ ⟨fun _ => 0, 0⟩ rfl rfl

/-- C10: construction validates nothing about `T` — it is a total function
storing `T` as given (here over the naturals, the shape-indexable values),
and with `T = 0` observation simulation on a length-10 vector returns the
empty 0×10 matrix instead of signalling a violation. -/
theorem c10_zero_T (T : ℕ) (r : Rng) (params : Fin 10 → ℝ) :
    (mkSim T r).T = T ∧ (mkSim T r).cov = covSigma ∧
    (observationModel (mkSim 0 r) params).1 = (0 : Matrix (Fin 0) (Fin 10) ℝ) := by
  refine ⟨rfl, rfl, ?_⟩
  ext t j
  exact t.elim0

/-- The logistic link is strictly increasing. -/
lemma expit_strictMono : StrictMono expit := by
  intro a b hab
  unfold expit
  have h1 : Real.exp (-b) < Real.exp (-a) := Real.exp_lt_exp.mpr (by linarith)
  have ha : 0 < 1 + Real.exp (-a) := by positivity
  have hb : 0 < 1 + Real.exp (-b) := by positivity
  rw [div_lt_div_iff ha hb]
  nlinarith

/-- Changing only the `k`-th weight changes the linear predictor by
`V k * (g k - f k)`. -/
lemma sum_mul_single_diff (V f g : Fin 9 → ℝ) (k : Fin 9)
    (hoth : ∀ j, j ≠ k → f j = g j) :
    (∑ j, V j * g j) - (∑ j, V j * f j) = V k * (g k - f k) := by
  rw [← Finset.sum_sub_distrib, Finset.sum_eq_single k]
  · ring
  · intro b _ hb
    rw [hoth b hb]
    ring
  · intro hmem
    exact absurd (Finset.mem_univ k) hmem

/-- C9: with the design matrix held fixed (same randomness source) and all
other parameters held fixed, increasing the single weight `f_k` strictly
increases the success probability at every time step `t` with `V[k,t] > 0`
and strictly decreases it at every `t` with `V[k,t] < 0`. -/
theorem c9_weight_monotonicity (T : ℕ) (r : Rng) (beta : ℝ) (f g : Fin 9 → ℝ)
    (k : Fin 9) (hk : f k < g k) (hoth : ∀ j, j ≠ k → f j = g j) (t : Fin T) :
    (0 < designMatrix T r k t →
      expit ((∑ j, designMatrix T r j t * f j) + beta)
        < expit ((∑ j, designMatrix T r j t * g j) + beta)) ∧
    (designMatrix T r k t < 0 →
      expit ((∑ j, designMatrix T r j t * g j) + beta)
        < expit ((∑ j, designMatrix T r j t * f j) + beta)) := by
  have hdiff := sum_mul_single_diff (fun j => designMatrix T r j t) f g k hoth
  constructor
  · intro hpos
    apply expit_strictMono
    have h2 : 0 < designMatrix T r k t * (g k - f k) := mul_pos hpos (by linarith)
    simp only at hdiff
    linarith
  · intro hneg
    apply expit_strictMono
    have h2 : designMatrix T r k t * (g k - f k) < 0 :=
      mul_neg_of_neg_of_pos hneg (by linarith)
    simp only at hdiff
    linarith

/-- Witness for C9: a concrete instance with `T = 1`, an all-ones stream,
the zero weight vector against the unit bump at weight 0. -/
theorem c9_weight_monotonicity_witness :
    (0 < designMatrix 1 ⟨fun _ => 1, 0⟩ 0 ⟨0, Nat.one_pos⟩ →
      expit ((∑ j, designMatrix 1 ⟨fun _ => 1, 0⟩ j ⟨0, Nat.one_pos⟩
            * (fun _ : Fin 9 => (0 : ℝ)) j) + 0)
        < expit ((∑ j, designMatrix 1 ⟨fun _ => 1, 0⟩ j ⟨0, Nat.one_pos⟩
            * (fun j : Fin 9 => if j = 0 then (1 : ℝ) else 0) j) + 0)) ∧
    (designMatrix 1 ⟨fun _ => 1, 0⟩ 0 ⟨0, Nat.one_pos⟩ < 0 →
      expit ((∑ j, designMatrix 1 ⟨fun _ => 1, 0⟩ j ⟨0, Nat.one_pos⟩
            * (fun j : Fin 9 => if j = 0 then (1 : ℝ) else 0) j) + 0)
        < expit ((∑ j, designMatrix 1 ⟨fun _ => 1, 0⟩ j ⟨0, Nat.one_pos⟩
            * (fun _ : Fin 9 => (0 : ℝ)) j) + 0)) :=
  c9_weight_monotonicity 1 ⟨fun _ => 1, 0⟩ 0 (fun _ => 0)
    (fun j => if j = 0 then 1 else 0) 0 (by norm_num)
    (fun j hj => by simp [hj]) ⟨0, Nat.one_pos⟩

/-- C5 counterexample: with `T = 1` and the 5-entry parameter vector
`[0,0,0,0,0]`, observation simulation does fail, but only after the design
matrix has been sampled: at the moment of failure the generator has
consumed 9 cells (position 9, not the initial 0), contradicting "signals
the shape violation immediately, before any sampling occurs". -/
theorem c5_counterexample :
    (obsModelDyn 1 ⟨fun _ => 0, 0⟩ [0, 0, 0, 0, 0]).1
        = Except.error "ValueError: shapes not aligned" ∧
    (obsModelDyn 1 ⟨fun _ => 0, 0⟩ [0, 0, 0, 0, 0]).2.pos = 9 ∧
    (9 : ℕ) ≠ 0 :=
  ⟨rfl, rfl, by decide⟩

/-- C5 (amended): for every parameter vector without exactly 10 entries,
observation simulation fails and produces no observation matrix; for the
empty vector it fails at parameter unpacking with the generator untouched,
but for every other wrong length it fails only at the linear-predictor
step, after the design matrix has been drawn (`9 * T` cells consumed). -/
theorem c5_shape_error (T : ℕ) (r : Rng) (params : List ℝ)
    (h : params.length ≠ 10) :
    (∃ e, (obsModelDyn T r params).1 = Except.error e) ∧
    (params = [] → (obsModelDyn T r params).2 = r) ∧
    (params ≠ [] → (obsModelDyn T r params).2.pos = r.pos + 9 * T) := by
  cases params with
  | nil => exact ⟨⟨_, rfl⟩, fun _ => rfl, fun hne => absurd rfl hne⟩
  | cons p rest =>
    have hr : ¬ rest.length = 9 := by
      intro h9
      exact h (by simp [h9])
    refine ⟨⟨"ValueError: shapes not aligned", ?_⟩,
      fun he => absurd he (List.cons_ne_nil p rest), fun _ => ?_⟩
    · show (obsModelDyn T r (p :: rest)).1 = _
      unfold obsModelDyn
      dsimp only
      rw [if_neg hr]
    · show (obsModelDyn T r (p :: rest)).2.pos = _
      unfold obsModelDyn
      dsimp only
      rw [if_neg hr]
      rfl

/-- Witness for the amended C5 at a concrete wrong-length input. -/
theorem c5_shape_error_witness :
    (∃ e, (obsModelDyn 1 ⟨fun _ => 0, 0⟩ [0, 0, 0]).1 = Except.error e) ∧
    (([0, 0, 0] : List ℝ) = [] → (obsModelDyn 1 ⟨fun _ => 0, 0⟩ [0, 0, 0]).2
        = (⟨fun _ => 0, 0⟩ : Rng)) ∧
    (([0, 0, 0] : List ℝ) ≠ [] → (obsModelDyn 1 ⟨fun _ => 0, 0⟩ [0, 0, 0]).2.pos
        = (⟨fun _ => 0, 0⟩ : Rng).pos + 9 * 1) :=
  c5_shape_error 1 ⟨fun _ => 0, 0⟩ [0, 0, 0] (by decide)

end BernoulliGLM
